import Mathlib

/-!
Shallow embedding of the fixture-capture engine of `op-test-vectors`
(crate `opt8n`, file `src/crates/opt8n/src/opt8n.rs`).

The execution node (anvil backend) is external to the repository: every
call the code makes into it (`debug_trace_transaction`, `mine_block`,
`get_block`, `transaction_receipt`, `reset_fork`, file I/O) is modelled
as an oracle supplied as a function argument, and the code's own control
flow over those answers is translated literally.  Machine-level payloads
the code never inspects (account state fields, receipts, block roots,
error values) are carried as opaque `Nat`-coded data.
-/

/-- Account addresses, as carried opaquely through the diff maps. -/
abbrev Address := Nat

/-- Transaction hashes (`tx.hash()`). -/
abbrev TxHash := Nat

/-- Opaque error values (`color_eyre::Report`); the code only propagates
them, never inspects them. -/
abbrev Err := Nat

/-- Opaque receipt payload (`ExecutionReceipt`); the code only appends
receipts, never inspects them. -/
abbrev ExecutionReceipt := Nat

/-- Account state as reported by the node's diff-mode tracer
(balance, nonce, code, storage); the capture engine treats it opaquely. -/
structure AccountState where
  balance : Nat
  nonce : Nat
  code : Nat
  storage : List (Nat × Nat)
  deriving Repr, DecidableEq

/-- A transaction as far as the capture engine looks at it:
its hash (used for receipt and trace lookups) and its gas price
(used for pool priority). -/
structure TypedTransaction where
  hash : TxHash
  gasPrice : Nat
  deriving Repr, DecidableEq

/-- The pre/post state maps `alloc` / `out_alloc` (Rust `BTreeMap<Address, AccountState>`),
modelled as association lists with unique-key discipline maintained by the
insert operations below. -/
abbrev AllocMap := List (Address × AccountState)

/-- Key lookup in an alloc map (first matching key). -/
def lookupAddr (addr : Address) : AllocMap → Option AccountState
  | [] => none
  | (a, v) :: rest => if a = addr then some v else lookupAddr addr rest

/-- `self.execution_fixture.alloc.entry(address).or_insert(account)`:
insert only when the key is absent. -/
def allocInsert (m : AllocMap) (addr : Address) (acct : AccountState) : AllocMap :=
  match lookupAddr addr m with
  | some _ => m
  | none => (addr, acct) :: m

/-- `self.execution_fixture.out_alloc.insert(address, account)`:
map insert that overwrites any existing binding for the key. -/
def outAllocInsert (m : AllocMap) (addr : Address) (acct : AccountState) : AllocMap :=
  (addr, acct) :: m.filter (fun p => p.1 != addr)

/-- The diff-mode pre-state frame (`PreStateFrame::Diff`): account states
before (`pre`) and after (`post`) the transaction, keyed by address. -/
structure DiffFrame where
  pre : List (Address × AccountState)
  post : List (Address × AccountState)
  deriving Repr, DecidableEq

/-- A trace answer from `debug_trace_transaction`.  The code pattern-matches
`GethTrace::PreStateTracer(PreStateFrame::Diff(frame))` and treats every
other trace shape alike (silently skipped); the non-diff shapes are
collapsed into `other`, tagged with an opaque code. -/
inductive GethTrace where
  | preStateDiff (frame : DiffFrame)
  | other (shape : Nat)
  deriving Repr, DecidableEq

/-- `frame.pre.into_iter().for_each(.. or_insert ..)`: merge a diff's
pre-state into `alloc`, inserting only absent keys. -/
def mergeDiffAlloc (m : AllocMap) (pre : List (Address × AccountState)) : AllocMap :=
  pre.foldl (fun acc p => allocInsert acc p.1 p.2) m

/-- `frame.post.into_iter().for_each(.. insert ..)`: merge a diff's
post-state into `out_alloc`, overwriting existing keys. -/
def mergeDiffOut (m : AllocMap) (post : List (Address × AccountState)) : AllocMap :=
  post.foldl (fun acc p => outAllocInsert acc p.1 p.2) m

/-- `ExecutionResult`: canonical roots and bloom copied from the mined
block header, plus the assembled receipts. -/
structure ExecutionResult where
  state_root : Nat
  tx_root : Nat
  receipt_root : Nat
  logs_hash : Nat
  logs_bloom : Nat
  receipts : List ExecutionReceipt
  deriving Repr, DecidableEq

/-- The default `ExecutionResult` (all-zero roots, no receipts). -/
def ExecutionResult.default : ExecutionResult :=
  { state_root := 0, tx_root := 0, receipt_root := 0,
    logs_hash := 0, logs_bloom := 0, receipts := [] }

/-- `ExecutionFixture`: the in-memory accumulating record owned by the
session.  `env` is the opaque block execution environment obtained from
`block.into()`. -/
structure ExecutionFixture where
  transactions : List TypedTransaction
  alloc : AllocMap
  out_alloc : AllocMap
  env : Nat
  result : ExecutionResult
  deriving Repr, DecidableEq

/-- The default (empty) fixture a session starts with. -/
def ExecutionFixture.default : ExecutionFixture :=
  { transactions := [], alloc := [], out_alloc := [], env := 0,
    result := ExecutionResult.default }

/-- A mined block as the capture engine reads it: its transactions in
block order, the header roots and bloom it copies into the result, and
the opaque execution environment `block.into()` produces. -/
structure Block where
  transactions : List TypedTransaction
  state_root : Nat
  tx_root : Nat
  receipt_root : Nat
  logs_bloom : Nat
  env : Nat
  deriving Repr, DecidableEq

/-- `Opt8n::update_alloc`: walk the transactions in order; for each,
ask the node for a diff-mode pre-state trace.  A node error aborts the
walk (Rust `?`), keeping whatever was already merged into the fixture
(`self` is mutated in place); a diff-shaped trace merges `pre` into
`alloc` (insert-if-absent) and `post` into `out_alloc` (overwrite);
any other trace shape is skipped.  Returns the (possibly partially
updated) fixture together with the propagated error, if any. -/
def update_alloc (traceOf : TxHash → Except Err GethTrace) (f : ExecutionFixture) :
    List TypedTransaction → ExecutionFixture × Option Err
  | [] => (f, none)
  | tx :: rest =>
    match traceOf tx.hash with
    | .error e => (f, some e)
    | .ok (.preStateDiff frame) =>
        update_alloc traceOf
          { f with alloc := mergeDiffAlloc f.alloc frame.pre,
                   out_alloc := mergeDiffOut f.out_alloc frame.post } rest
    | .ok (.other _) => update_alloc traceOf f rest

/-- The receipt-collection loop of `dump_execution_fixture`: for each
transaction in block order fetch its receipt; a node error aborts
(Rust `?`); a missing receipt (`None`) is skipped; present receipts are
appended in order. -/
def collectReceipts (receiptOf : TxHash → Except Err (Option ExecutionReceipt)) :
    List TypedTransaction → List ExecutionReceipt → Except Err (List ExecutionReceipt)
  | [], acc => .ok acc
  | tx :: rest, acc =>
    match receiptOf tx.hash with
    | .error e => .error e
    | .ok none => collectReceipts receiptOf rest acc
    | .ok (some r) => collectReceipts receiptOf rest (acc ++ [r])

/-- `PoolTransaction`: a transaction wrapped with scheduling metadata for
`mine_block`. -/
structure PoolTransaction where
  pending_transaction : TypedTransaction
  requires : List Nat
  provides : List Nat
  priority : Nat
  deriving Repr, DecidableEq

/-- The responses of the external execution node and of the filesystem,
as `dump_execution_fixture` consumes them.  `resetResult` is the answer
to `reset_fork` (which the code discards), `mineBlock` returns the mined
block number, `getBlock` fetches a block by number, `writeFixture` is the
combined outcome of creating the output file and serializing into it. -/
structure NodeOracle where
  resetResult : Except Err Unit
  mineBlock : List PoolTransaction → Nat
  getBlock : Nat → Option Block
  receiptOf : TxHash → Except Err (Option ExecutionReceipt)
  traceOf : TxHash → Except Err GethTrace
  writeFixture : Except Err Unit

/-- Observable outcome of one `dump_execution_fixture` call: the fixture
state afterwards, the content written to the output file (if the write
happened and succeeded), how many times the fork reset was attempted,
the transaction sets submitted to `mine_block`, and the propagated
error, if any. -/
structure DumpOutcome where
  fixture : ExecutionFixture
  written : Option ExecutionFixture
  resetAttempts : Nat
  mineSubmissions : List (List PoolTransaction)
  error : Option Err
  deriving Repr, DecidableEq

/-- `Opt8n::dump_execution_fixture`:
reset the fork (result discarded with `let _ =`); wrap every accumulated
transaction as a `PoolTransaction` with empty `requires`/`provides` and
priority equal to its gas price; submit the whole set to `mine_block`
once; if the mined block can be retrieved, collect receipts in block
order, run `update_alloc` over the block-ordered transactions, and
assemble the `ExecutionResult` (with `logs_hash` left as the zero
placeholder) and the new `env`; finally — whether or not a block was
retrieved — serialize the fixture to the output file.  Errors from the
receipt loop, `update_alloc` or the write propagate (Rust `?`). -/
def dump_execution_fixture (o : NodeOracle) (f : ExecutionFixture) : DumpOutcome :=
  let pool_txs := f.transactions.map (fun tx =>
    { pending_transaction := tx, requires := [], provides := [],
      priority := tx.gasPrice : PoolTransaction })
  let mined_block := o.mineBlock pool_txs
  let afterBlock : ExecutionFixture × Option Err :=
    match o.getBlock mined_block with
    | some block =>
      let ordered_txs := block.transactions
      match collectReceipts o.receiptOf ordered_txs [] with
      | .error e => (f, some e)
      | .ok receipts =>
        match update_alloc o.traceOf f ordered_txs with
        | (f2, some e) => (f2, some e)
        | (f2, none) =>
          let execution_result : ExecutionResult :=
            { state_root := block.state_root, tx_root := block.tx_root,
              receipt_root := block.receipt_root, logs_hash := 0,
              logs_bloom := block.logs_bloom, receipts := receipts }
          ({ f2 with env := block.env, result := execution_result }, none)
    | none => (f, none)
  let final : ExecutionFixture × Option ExecutionFixture × Option Err :=
    match afterBlock with
    | (f3, some e) => (f3, none, some e)
    | (f3, none) =>
      match o.writeFixture with
      | .error e => (f3, none, some e)
      | .ok _ => (f3, some f3, none)
  { fixture := final.1, written := final.2.1, resetAttempts := 1,
    mineSubmissions := [pool_txs], error := final.2.2 }

/-- `ReplCommand`: the closed command set of the session loop. -/
inductive ReplCommand where
  | anvil (args : List String)
  | cast (args : List String)
  | dump
  | exit
  deriving Repr, DecidableEq

/-- One ready event of the `tokio::select!` race in `Opt8n::repl`:
either a command line finished parsing (successfully or not), or the
block-notification stream yielded.  `newBlock none` covers both a closed
stream and a notification whose block `get_block_by_hash` cannot find —
in either case the code does nothing. -/
inductive ReplEvent where
  | command (c : Except Err ReplCommand)
  | newBlock (b : Option Block)
  deriving Repr

/-- Result of handling one ready event in `Opt8n::repl`:
the loop continues with an updated fixture (`reported` records whether an
error message was printed for a malformed command), breaks out normally
(`Exit`), or aborts with a propagated error from `execute` (Rust `?`). -/
inductive StepResult where
  | continued (f : ExecutionFixture) (reported : Bool)
  | terminated
  | failed (e : Err)
  deriving Repr, DecidableEq

/-- One iteration of the `Opt8n::repl` loop body.  `aRun` is the external
`NodeArgs` parse-and-run of the `anvil` passthrough command; `cast` is a
no-op in the source. -/
def replStep (o : NodeOracle) (aRun : List String → Except Err Unit)
    (f : ExecutionFixture) : ReplEvent → StepResult
  | .command (.error _) => .continued f true
  | .command (.ok .exit) => .terminated
  | .command (.ok .dump) =>
    let out := dump_execution_fixture o f
    match out.error with
    | some e => .failed e
    | none => .continued out.fixture false
  | .command (.ok (.anvil args)) =>
    match aRun args with
    | .error e => .failed e
    | .ok _ => .continued f false
  | .command (.ok (.cast _)) => .continued f false
  | .newBlock none => .continued f false
  | .newBlock (some b) =>
    .continued { f with transactions := f.transactions ++ b.transactions } false

/-- Where a run of the session loop stands after consuming a finite
sequence of ready events: still waiting for the next event, terminated
normally by `Exit`, or aborted by a propagated error. -/
inductive RunResult where
  | running (f : ExecutionFixture)
  | finished (f : ExecutionFixture)
  | failed (e : Err)
  deriving Repr, DecidableEq

/-- `Opt8n::repl` driven by a finite sequence of ready events. -/
def replRun (o : NodeOracle) (aRun : List String → Except Err Unit)
    (f : ExecutionFixture) : List ReplEvent → RunResult
  | [] => .running f
  | ev :: rest =>
    match replStep o aRun f ev with
    | .continued f2 _ => replRun o aRun f2 rest
    | .terminated => .finished f
    | .failed e => .failed e

/-- Outcome of `Opt8n::receive_command`: the `.unwrap()` on the absent
line makes end-of-input a panic, propagated I/O or parse failures are
errors, otherwise a parsed command is returned. -/
inductive CommandOutcome where
  | panicked
  | failed (e : Err)
  | gotCommand (c : ReplCommand)
  deriving Repr, DecidableEq

/-- `Opt8n::receive_command`: read the next line (`next_line()` yields an
I/O error, end-of-input `none`, or a line), `unwrap()` the option —
panicking on `none` — then tokenize and parse the line (`shellwords`
plus clap, bundled into `parseLine`, each failure propagated). -/
def receive_command (nextLine : Except Err (Option String))
    (parseLine : String → Except Err ReplCommand) : CommandOutcome :=
  match nextLine with
  | .error e => .failed e
  | .ok none => .panicked
  | .ok (some line) =>
    match parseLine line with
    | .error e => .failed e
    | .ok c => .gotCommand c

/-- Whether an `Except` value carries a success (Rust `Result::is_ok`). -/
def isOkE {α : Type} : Except Err α → Bool
  | .ok _ => true
  | .error _ => false

/-- Sample account state used in concrete evaluations. -/
def acctA : AccountState := ⟨10, 0, 0, []⟩

/-- Second sample account state used in concrete evaluations. -/
def acctB : AccountState := ⟨20, 1, 0, []⟩

/-- Third sample account state used in concrete evaluations. -/
def acctC : AccountState := ⟨30, 2, 0, []⟩

/-- Sample transaction with hash 1 and gas price 5. -/
def txA : TypedTransaction := ⟨1, 5⟩

/-- Sample transaction with hash 2 and gas price 7. -/
def txB : TypedTransaction := ⟨2, 7⟩

/-- Sample mined block containing `txA` and `txB` in block order. -/
def blockAB : Block := ⟨[txA, txB], 11, 12, 13, 14, 15⟩

/-- Sample diff frame: pre-state for address 3, post-state for address 4. -/
def diffA : DiffFrame := ⟨[(3, acctA)], [(4, acctB)]⟩

/-- A baseline node oracle: mining yields block number 0, no block is
retrievable, receipts are absent, traces are non-diff, reset and the
output write succeed. -/
def oracleBase : NodeOracle :=
  { resetResult := .ok ()
    mineBlock := fun _ => 0
    getBlock := fun _ => none
    receiptOf := fun _ => .ok none
    traceOf := fun _ => .ok (.other 0)
    writeFixture := .ok () }

/-- Oracle whose node returns `blockAB` for every block number, answers
the trace request for `txA` with the diff `diffA`, and fails the trace
request for every other transaction with error 9. -/
def oracleTraceErr : NodeOracle :=
  { oracleBase with
    getBlock := fun _ => some blockAB
    traceOf := fun h => if h = 1 then .ok (.preStateDiff diffA) else .error 9 }

/-! ## Helper lemmas about the merge operations -/

/-- An existing binding survives a single insert-if-absent. -/
theorem lookupAddr_allocInsert (m : AllocMap) (a addr : Address)
    (acct v : AccountState) (h : lookupAddr addr m = some v) :
    lookupAddr addr (allocInsert m a acct) = some v := by
  cases hl : lookupAddr a m with
  | some w => simpa [allocInsert, hl] using h
  | none =>
    have hne : a ≠ addr := by
      intro he
      subst he
      rw [hl] at h
      cases h
    simp [allocInsert, hl, lookupAddr, hne, h]

/-- An existing binding survives merging a whole pre-state diff. -/
theorem lookupAddr_mergeDiffAlloc (pre : List (Address × AccountState)) :
    ∀ (m : AllocMap) (addr : Address) (v : AccountState),
      lookupAddr addr m = some v →
      lookupAddr addr (mergeDiffAlloc m pre) = some v := by
  induction pre with
  | nil => intro m addr v h; simpa [mergeDiffAlloc] using h
  | cons p rest ih =>
    intro m addr v h
    simp only [mergeDiffAlloc, List.foldl_cons] at *
    exact ih _ _ _ (lookupAddr_allocInsert m p.1 addr p.2 v h)

/-- Inserting a key makes it present. -/
theorem lookupAddr_allocInsert_self (m : AllocMap) (k : Address)
    (x : AccountState) : (lookupAddr k (allocInsert m k x)).isSome := by
  cases hl : lookupAddr k m with
  | some w => simp [allocInsert, hl]
  | none => simp [allocInsert, hl, lookupAddr]

/-- Every key of a merged pre-state diff is present afterwards. -/
theorem lookupAddr_mergeDiffAlloc_isSome (pre : List (Address × AccountState)) :
    ∀ (m : AllocMap) (k : Address) (x : AccountState), (k, x) ∈ pre →
      (lookupAddr k (mergeDiffAlloc m pre)).isSome := by
  induction pre with
  | nil => intro m k x hm; cases hm
  | cons p rest ih =>
    intro m k x hm
    simp only [mergeDiffAlloc, List.foldl_cons]
    rcases List.mem_cons.mp hm with he | hr
    · have hs : (lookupAddr k (allocInsert m p.1 p.2)).isSome := by
        rw [← he]
        exact lookupAddr_allocInsert_self m k x
      cases hv : lookupAddr k (allocInsert m p.1 p.2) with
      | none => rw [hv] at hs; cases hs
      | some w =>
        have := lookupAddr_mergeDiffAlloc rest (allocInsert m p.1 p.2) k w hv
        simp only [mergeDiffAlloc] at this
        rw [this]
        rfl
    · exact ih _ _ _ hr

/-- Merging a pre-state diff whose keys are all present is a no-op. -/
theorem mergeDiffAlloc_of_present (pre : List (Address × AccountState)) :
    ∀ m : AllocMap, (∀ p ∈ pre, (lookupAddr p.1 m).isSome) →
      mergeDiffAlloc m pre = m := by
  induction pre with
  | nil => intro m _; rfl
  | cons p rest ih =>
    intro m h
    have hp : (lookupAddr p.1 m).isSome := h p (List.mem_cons_self _ _)
    have hins : allocInsert m p.1 p.2 = m := by
      cases hl : lookupAddr p.1 m with
      | none => rw [hl] at hp; cases hp
      | some w => simp [allocInsert, hl]
    simp only [mergeDiffAlloc, List.foldl_cons, hins]
    exact ih m (fun q hq => h q (List.mem_cons_of_mem _ hq))

/-- Merging the same pre-state diff a second time changes nothing. -/
theorem mergeDiffAlloc_idem (m : AllocMap) (pre : List (Address × AccountState)) :
    mergeDiffAlloc (mergeDiffAlloc m pre) pre = mergeDiffAlloc m pre := by
  refine mergeDiffAlloc_of_present pre (mergeDiffAlloc m pre) (fun p hp => ?_)
  exact lookupAddr_mergeDiffAlloc_isSome pre m p.1 p.2 (by simpa using hp)

/-- `update_alloc` never changes the value stored under a key that is
already present in `alloc`. -/
theorem lookupAddr_update_alloc (traceOf : TxHash → Except Err GethTrace)
    (txs : List TypedTransaction) :
    ∀ (f : ExecutionFixture) (addr : Address) (v : AccountState),
      lookupAddr addr f.alloc = some v →
      lookupAddr addr ((update_alloc traceOf f txs).1).alloc = some v := by
  induction txs with
  | nil => intro f addr v h; simpa [update_alloc] using h
  | cons tx rest ih =>
    intro f addr v h
    cases htr : traceOf tx.hash with
    | error e => simpa [update_alloc, htr] using h
    | ok g =>
      cases g with
      | preStateDiff frame =>
        simp only [update_alloc, htr]
        exact ih _ _ _ (lookupAddr_mergeDiffAlloc frame.pre f.alloc addr v h)
      | other s =>
        simp only [update_alloc, htr]
        exact ih _ _ _ h

/-- Overwrite-insert makes the inserted binding visible. -/
theorem lookupAddr_outAllocInsert_self (m : AllocMap) (addr : Address)
    (acct : AccountState) :
    lookupAddr addr (outAllocInsert m addr acct) = some acct := by
  simp [outAllocInsert, lookupAddr]

/-- Filtering out another key does not change a lookup. -/
theorem lookupAddr_filter_ne (addr a : Address) (h : a ≠ addr) :
    ∀ m : AllocMap,
      lookupAddr a (m.filter (fun p => p.1 != addr)) = lookupAddr a m := by
  intro m
  induction m with
  | nil => rfl
  | cons p rest ih =>
    obtain ⟨k, v⟩ := p
    have hne : ¬ addr = a := fun he => h he.symm
    by_cases hk : k = addr
    · have hka : ¬ k = a := by
        intro he
        exact h (he ▸ hk)
      simp [List.filter_cons, hk, lookupAddr, hka, ih, h, hne]
    · by_cases hke : k = a
      · simp [List.filter_cons, hk, lookupAddr, hke, h, hne]
      · simp [List.filter_cons, hk, lookupAddr, hke, ih, h, hne]

/-- Overwrite-insert leaves other keys' lookups unchanged. -/
theorem lookupAddr_outAllocInsert_ne (m : AllocMap) (addr a : Address)
    (acct : AccountState) (h : a ≠ addr) :
    lookupAddr a (outAllocInsert m addr acct) = lookupAddr a m := by
  have hne : ¬ addr = a := fun he => h he.symm
  simp only [outAllocInsert, lookupAddr, if_neg hne]
  exact lookupAddr_filter_ne addr a h m

/-- Merging a post-state diff that does not mention a key leaves that
key's lookup unchanged. -/
theorem lookupAddr_mergeDiffOut_not_mem (post : List (Address × AccountState)) :
    ∀ (m : AllocMap) (addr : Address), addr ∉ post.map Prod.fst →
      lookupAddr addr (mergeDiffOut m post) = lookupAddr addr m := by
  induction post with
  | nil => intro m addr _; rfl
  | cons p rest ih =>
    intro m addr h
    simp only [List.map_cons, List.mem_cons] at h
    push_neg at h
    simp only [mergeDiffOut, List.foldl_cons]
    have := ih (outAllocInsert m p.1 p.2) addr h.2
    simp only [mergeDiffOut] at this
    rw [this]
    exact lookupAddr_outAllocInsert_ne m p.1 addr p.2 h.1

/-- Merging a post-state diff with unique keys stores exactly the diff's
value for every key the diff mentions. -/
theorem lookupAddr_mergeDiffOut_mem (post : List (Address × AccountState)) :
    ∀ (m : AllocMap) (addr : Address) (v : AccountState),
      (post.map Prod.fst).Nodup → (addr, v) ∈ post →
      lookupAddr addr (mergeDiffOut m post) = some v := by
  induction post with
  | nil => intro m addr v _ hm; cases hm
  | cons p rest ih =>
    intro m addr v hnd hm
    obtain ⟨k, w⟩ := p
    simp only [List.map_cons, List.nodup_cons] at hnd
    simp only [mergeDiffOut, List.foldl_cons]
    rcases List.mem_cons.mp hm with he | hr
    · injection he with h1 h2
      subst h1
      subst h2
      have := lookupAddr_mergeDiffOut_not_mem rest (outAllocInsert m addr v) addr hnd.1
      simp only [mergeDiffOut] at this
      rw [this]
      exact lookupAddr_outAllocInsert_self m addr v
    · exact ih _ _ _ hnd.2 hr

/-- A node error during the trace walk aborts `update_alloc` with that
error while keeping everything merged for the earlier transactions. -/
theorem update_alloc_error_partial (traceOf : TxHash → Except Err GethTrace)
    (good : List TypedTransaction) :
    ∀ (f : ExecutionFixture) (te : TypedTransaction)
      (rest : List TypedTransaction) (e : Err),
      (∀ t ∈ good, isOkE (traceOf t.hash) = true) →
      traceOf te.hash = .error e →
      update_alloc traceOf f (good ++ te :: rest) =
        ((update_alloc traceOf f good).1, some e) := by
  induction good with
  | nil =>
    intro f te rest e _ hte
    simp [update_alloc, hte]
  | cons t rest' ih =>
    intro f te rest e hok hte
    have ht : isOkE (traceOf t.hash) = true := hok t (List.mem_cons_self _ _)
    have hrest : ∀ q ∈ rest', isOkE (traceOf q.hash) = true :=
      fun q hq => hok q (List.mem_cons_of_mem _ hq)
    cases htr : traceOf t.hash with
    | error e2 => rw [htr] at ht; cases ht
    | ok g =>
      cases g with
      | preStateDiff frame =>
        simp only [List.cons_append, update_alloc, htr]
        exact ih _ te rest e hrest hte
      | other s =>
        simp only [List.cons_append, update_alloc, htr]
        exact ih _ te rest e hrest hte

/-- When every receipt request succeeds, the receipt loop returns the
present receipts, in input order, appended to the accumulator. -/
theorem collectReceipts_ok (receiptOf : TxHash → Except Err (Option ExecutionReceipt))
    (txs : List TypedTransaction) :
    ∀ acc : List ExecutionReceipt,
      (∀ tx ∈ txs, isOkE (receiptOf tx.hash) = true) →
      collectReceipts receiptOf txs acc =
        .ok (acc ++ txs.filterMap (fun tx =>
          match receiptOf tx.hash with
          | .ok r => r
          | .error _ => none)) := by
  induction txs with
  | nil => intro acc _; simp [collectReceipts]
  | cons tx rest ih =>
    intro acc h
    have htx : isOkE (receiptOf tx.hash) = true := h tx (List.mem_cons_self _ _)
    have hrest : ∀ q ∈ rest, isOkE (receiptOf q.hash) = true :=
      fun q hq => h q (List.mem_cons_of_mem _ hq)
    cases hr : receiptOf tx.hash with
    | error e => rw [hr] at htx; cases htx
    | ok r =>
      cases r with
      | none =>
        simp only [collectReceipts, hr]
        rw [ih acc hrest]
        simp [List.filterMap_cons, hr]
      | some x =>
        simp only [collectReceipts, hr]
        rw [ih (acc ++ [x]) hrest]
        simp [List.filterMap_cons, hr]

/-! ## Claim theorems -/

/-- C1: the pre-state map `alloc` is first-write-wins: a key already
present in `alloc` keeps its stored value across any further merge done
by `update_alloc`, and merging the same diff's pre-state a second time
leaves `alloc` unchanged; only absent keys are inserted. -/
theorem alloc_first_write_wins (traceOf : TxHash → Except Err GethTrace)
    (f : ExecutionFixture) (txs : List TypedTransaction) (addr : Address)
    (v : AccountState) (m : AllocMap) (pre : List (Address × AccountState))
    (h : lookupAddr addr f.alloc = some v) :
    lookupAddr addr ((update_alloc traceOf f txs).1).alloc = some v ∧
    mergeDiffAlloc (mergeDiffAlloc m pre) pre = mergeDiffAlloc m pre :=
  ⟨lookupAddr_update_alloc traceOf txs f addr v h, mergeDiffAlloc_idem m pre⟩

/-- C1 witness: address 3 is bound to `acctA` before the walk; a diff
that reports `acctB` as its pre-state does not overwrite it, and a
double merge equals a single merge. -/
theorem alloc_first_write_wins_witness :
    lookupAddr 3 ((update_alloc (fun _ => .ok (.preStateDiff ⟨[(3, acctB)], []⟩))
      { ExecutionFixture.default with alloc := [(3, acctA)] } [txA]).1).alloc =
      some acctA ∧
    mergeDiffAlloc (mergeDiffAlloc [(3, acctA)] [(3, acctB), (5, acctC)])
        [(3, acctB), (5, acctC)] =
      mergeDiffAlloc [(3, acctA)] [(3, acctB), (5, acctC)] :=
  alloc_first_write_wins (fun _ => .ok (.preStateDiff ⟨[(3, acctB)], []⟩))
    { ExecutionFixture.default with alloc := [(3, acctA)] } [txA] 3 acctA
    [(3, acctA)] [(3, acctB), (5, acctC)] rfl

/-- C2: the post-state map `out_alloc` is last-write-wins: after
`update_alloc` merges diffs D1 then D2 that both mention an address,
`out_alloc` holds D2's post-state for it, and in general a merged
post-state binding equals the most recently merged diff's value. -/
theorem out_alloc_last_write_wins (traceOf : TxHash → Except Err GethTrace)
    (f : ExecutionFixture) (t1 t2 : TypedTransaction) (d1 d2 : DiffFrame)
    (addr : Address) (v1 v2 : AccountState) (m2 : AllocMap)
    (post2 : List (Address × AccountState)) (a2 : Address) (w2 : AccountState)
    (h1 : traceOf t1.hash = .ok (.preStateDiff d1))
    (h2 : traceOf t2.hash = .ok (.preStateDiff d2))
    (hm1 : (addr, v1) ∈ d1.post)
    (hm2 : (addr, v2) ∈ d2.post)
    (hnd : (d2.post.map Prod.fst).Nodup)
    (hnd2 : (post2.map Prod.fst).Nodup)
    (hmem2 : (a2, w2) ∈ post2) :
    lookupAddr addr ((update_alloc traceOf f [t1, t2]).1).out_alloc = some v2 ∧
    lookupAddr a2 (mergeDiffOut m2 post2) = some w2 := by
  constructor
  · simp only [update_alloc, h1, h2]
    exact lookupAddr_mergeDiffOut_mem d2.post _ addr v2 hnd hm2
  · exact lookupAddr_mergeDiffOut_mem post2 m2 a2 w2 hnd2 hmem2

/-- C2 witness: merging post-states `acctA` then `acctB` for address 4
leaves `acctB`, and the single-merge binding is the diff's value. -/
theorem out_alloc_last_write_wins_witness :
    lookupAddr 4 ((update_alloc
      (fun h => if h = 1 then .ok (.preStateDiff ⟨[], [(4, acctA)]⟩)
        else .ok (.preStateDiff ⟨[], [(4, acctB)]⟩))
      ExecutionFixture.default [txA, txB]).1).out_alloc = some acctB ∧
    lookupAddr 6 (mergeDiffOut [(6, acctA)] [(6, acctC)]) = some acctC :=
  out_alloc_last_write_wins
    (fun h => if h = 1 then .ok (.preStateDiff ⟨[], [(4, acctA)]⟩)
      else .ok (.preStateDiff ⟨[], [(4, acctB)]⟩))
    ExecutionFixture.default txA txB ⟨[], [(4, acctA)]⟩ ⟨[], [(4, acctB)]⟩
    4 acctA acctB [(6, acctA)] [(6, acctC)] 6 acctC
    rfl rfl (by decide) (by decide) (by decide) (by decide) (by decide)

/-- C3: when every receipt request succeeds, the assembled receipt list
is exactly the non-null receipts of the block's transactions, in block
order, and its length is at most the number of transactions; absent
receipts are skipped without failing. -/
theorem receipts_skip_missing
    (receiptOf : TxHash → Except Err (Option ExecutionReceipt))
    (txs : List TypedTransaction)
    (h : ∀ tx ∈ txs, isOkE (receiptOf tx.hash) = true) :
    collectReceipts receiptOf txs [] =
      .ok (txs.filterMap (fun tx =>
        match receiptOf tx.hash with
        | .ok r => r
        | .error _ => none)) ∧
    (txs.filterMap (fun tx =>
        match receiptOf tx.hash with
        | .ok r => r
        | .error _ => none)).length ≤ txs.length := by
  refine ⟨by simpa using collectReceipts_ok receiptOf txs [] h, ?_⟩
  exact List.length_filterMap_le _ _

/-- C3 witness: of two transactions, only the first has a receipt; the
loop yields exactly that receipt and does not fail on the second. -/
theorem receipts_skip_missing_witness :
    collectReceipts (fun h => if h = 1 then .ok (some 42) else .ok none)
      [txA, txB] [] =
      .ok ([txA, txB].filterMap (fun tx =>
        match (fun h => if h = 1 then .ok (some 42) else .ok none : TxHash → Except Err (Option ExecutionReceipt)) tx.hash with
        | .ok r => r
        | .error _ => none)) ∧
    ([txA, txB].filterMap (fun tx =>
        match (fun h => if h = 1 then .ok (some 42) else .ok none : TxHash → Except Err (Option ExecutionReceipt)) tx.hash with
        | .ok r => r
        | .error _ => none)).length ≤ [txA, txB].length :=
  receipts_skip_missing (fun h => if h = 1 then .ok (some 42) else .ok none)
    [txA, txB] (by decide)

/-- C4 counterexample: with a node that cannot return the mined block
and a writable output path, `dump_execution_fixture` still writes the
output artifact — the pre-dump fixture is serialized — contradicting
the claim that no observable effect (including the written output)
occurs when mining fails. -/
theorem dump_mining_failure_still_writes :
    oracleBase.getBlock (oracleBase.mineBlock
      (ExecutionFixture.default.transactions.map (fun tx =>
        { pending_transaction := tx, requires := [], provides := [],
          priority := tx.gasPrice : PoolTransaction }))) = none ∧
    (dump_execution_fixture oracleBase ExecutionFixture.default).written =
      some ExecutionFixture.default :=
  ⟨rfl, rfl⟩

/-- C4 (amended): if the mined block cannot be retrieved, no
`ExecutionResult` is assembled and the fixture — `env` and `result`
included — is left in its pre-dump state, but the dump still serializes
that pre-dump fixture to the output file (when the write succeeds; a
failing write propagates its error instead). -/
theorem dump_mining_failure_keeps_fixture (o : NodeOracle) (f : ExecutionFixture)
    (h : o.getBlock (o.mineBlock (f.transactions.map (fun tx =>
      { pending_transaction := tx, requires := [], provides := [],
        priority := tx.gasPrice : PoolTransaction }))) = none) :
    (dump_execution_fixture o f).fixture = f ∧
    (dump_execution_fixture o f).error =
      (match o.writeFixture with
       | .ok _ => none
       | .error e => some e) ∧
    (dump_execution_fixture o f).written =
      (match o.writeFixture with
       | .ok _ => some f
       | .error _ => none) := by
  simp only [dump_execution_fixture]
  rw [h]
  cases hw : o.writeFixture <;> simp [hw]

/-- C4 witness: the amended statement evaluated at the baseline oracle
(no block retrievable, write succeeds) and a one-transaction fixture. -/
theorem dump_mining_failure_keeps_fixture_witness :
    (dump_execution_fixture oracleBase
      { ExecutionFixture.default with transactions := [txA] }).fixture =
      { ExecutionFixture.default with transactions := [txA] } ∧
    (dump_execution_fixture oracleBase
      { ExecutionFixture.default with transactions := [txA] }).error =
      (match oracleBase.writeFixture with
       | .ok _ => none
       | .error e => some e) ∧
    (dump_execution_fixture oracleBase
      { ExecutionFixture.default with transactions := [txA] }).written =
      (match oracleBase.writeFixture with
       | .ok _ => some { ExecutionFixture.default with transactions := [txA] }
       | .error _ => none) :=
  dump_mining_failure_keeps_fixture oracleBase
    { ExecutionFixture.default with transactions := [txA] } rfl

/-- C5: if the node fails a diff-mode trace request for some transaction,
the dump aborts with that error and nothing is written, but the diffs of
the earlier transactions in the list stay merged in the fixture. -/
theorem dump_trace_error_aborts_keeping_partial (o : NodeOracle)
    (f : ExecutionFixture) (good : List TypedTransaction)
    (te : TypedTransaction) (rest : List TypedTransaction) (e : Err)
    (block : Block) (rs : List ExecutionReceipt)
    (hb : o.getBlock (o.mineBlock (f.transactions.map (fun tx =>
      { pending_transaction := tx, requires := [], provides := [],
        priority := tx.gasPrice : PoolTransaction }))) = some block)
    (ht : block.transactions = good ++ te :: rest)
    (hrec : collectReceipts o.receiptOf block.transactions [] = .ok rs)
    (hgood : ∀ t ∈ good, isOkE (o.traceOf t.hash) = true)
    (hte : o.traceOf te.hash = .error e) :
    (dump_execution_fixture o f).error = some e ∧
    (dump_execution_fixture o f).fixture = (update_alloc o.traceOf f good).1 ∧
    (dump_execution_fixture o f).written = none := by
  have hup := update_alloc_error_partial o.traceOf good f te rest e hgood hte
  simp only [dump_execution_fixture]
  rw [hb]
  simp only [hrec]
  rw [ht, hup]
  simp

/-- C5 witness: the trace for `txA` is a diff, the trace for `txB`
fails with error 9; the dump aborts with error 9 while `txA`'s diff
stays merged and nothing is written. -/
theorem dump_trace_error_aborts_keeping_partial_witness :
    (dump_execution_fixture oracleTraceErr ExecutionFixture.default).error =
      some 9 ∧
    (dump_execution_fixture oracleTraceErr ExecutionFixture.default).fixture =
      (update_alloc oracleTraceErr.traceOf ExecutionFixture.default [txA]).1 ∧
    (dump_execution_fixture oracleTraceErr ExecutionFixture.default).written =
      none :=
  dump_trace_error_aborts_keeping_partial oracleTraceErr
    ExecutionFixture.default [txA] txB [] 9 blockAB [] rfl rfl rfl
    (by decide) rfl

/-- C6: a transaction whose trace request succeeds with a non-diff trace
shape is silently skipped by `update_alloc`: the walk over the remaining
transactions is unaffected, and for that transaction alone the fixture
is returned unchanged with no error. -/
theorem update_alloc_skips_non_diff (traceOf : TxHash → Except Err GethTrace)
    (f : ExecutionFixture) (tx : TypedTransaction)
    (rest : List TypedTransaction) (s : Nat)
    (h : traceOf tx.hash = .ok (.other s)) :
    update_alloc traceOf f (tx :: rest) = update_alloc traceOf f rest ∧
    update_alloc traceOf f [tx] = (f, none) := by
  refine ⟨?_, ?_⟩ <;> simp [update_alloc, h]

/-- C6 witness: a non-diff trace for `txA` leaves the fixture unchanged
and reports no error. -/
theorem update_alloc_skips_non_diff_witness :
    update_alloc (fun _ => .ok (.other 7)) ExecutionFixture.default [txA, txB] =
      update_alloc (fun _ => .ok (.other 7)) ExecutionFixture.default [txB] ∧
    update_alloc (fun _ => .ok (.other 7)) ExecutionFixture.default [txA] =
      (ExecutionFixture.default, none) :=
  update_alloc_skips_non_diff (fun _ => .ok (.other 7))
    ExecutionFixture.default txA [txB] 7 rfl

/-- C7: the fork reset is attempted exactly once per dump and its result
is discarded: the dump's outcome is the same whatever `reset_fork`
answers, so no reset error is ever surfaced. -/
theorem dump_reset_result_discarded (o : NodeOracle) (r : Except Err Unit)
    (f : ExecutionFixture) :
    dump_execution_fixture { o with resetResult := r } f =
      dump_execution_fixture o f ∧
    (dump_execution_fixture o f).resetAttempts = 1 :=
  ⟨rfl, rfl⟩

/-- C8: in the session loop, a malformed or unrecognized input line only
reports an error and continues with the fixture untouched; the normal
terminal state is reached exactly by the `Exit` command; and after a
malformed line the session processes a subsequent `dump` exactly as it
would have without the malformed line. -/
theorem repl_exit_only_terminal (o : NodeOracle)
    (aRun : List String → Except Err Unit) (f : ExecutionFixture) (e : Err) :
    replStep o aRun f (.command (.error e)) = .continued f true ∧
    (∀ ev : ReplEvent, replStep o aRun f ev = .terminated ↔
      ev = .command (.ok .exit)) ∧
    replRun o aRun f [.command (.error e), .command (.ok .dump)] =
      replRun o aRun f [.command (.ok .dump)] := by
  refine ⟨rfl, ?_, rfl⟩
  intro ev
  cases ev with
  | command c =>
    cases c with
    | error e2 => simp [replStep]
    | ok cmd =>
      cases cmd with
      | anvil args => cases ha : aRun args <;> simp [replStep, ha]
      | cast args => simp [replStep]
      | dump =>
        cases hd : (dump_execution_fixture o f).error <;> simp [replStep, hd]
      | exit => simp [replStep]
  | newBlock b => cases b <;> simp [replStep]

/-- C9: every dump wraps each accumulated transaction as a pool
transaction with empty dependency lists and priority equal to the
transaction's gas price, and submits the whole set to `mine_block`
exactly once. -/
theorem dump_pool_wrapping (o : NodeOracle) (f : ExecutionFixture) :
    (dump_execution_fixture o f).mineSubmissions =
      [f.transactions.map (fun tx =>
        { pending_transaction := tx, requires := [], provides := [],
          priority := tx.gasPrice : PoolTransaction })] :=
  rfl

/-- C10: when standard input is exhausted, `receive_command` panics —
the absent line is unwrapped unconditionally — and end-of-input is the
only input that panics rather than returning an error or a command. -/
theorem receive_command_eof_panics
    (parseLine : String → Except Err ReplCommand) :
    receive_command (.ok none) parseLine = .panicked ∧
    ∀ nl : Except Err (Option String),
      receive_command nl parseLine = .panicked → nl = .ok none := by
  refine ⟨rfl, ?_⟩
  intro nl h
  cases nl with
  | error e => simp [receive_command] at h
  | ok o2 =>
    cases o2 with
    | none => rfl
    | some line =>
      cases hp : parseLine line <;> simp [receive_command, hp] at h
